import Mathlib

/-!
# ratelimit-demo: a verification development of `main.go`

The development embeds the parts of `main.go` that decide how the limiter is
retuned:

* `randInt` and `measureResponseTime`, the two helpers that consume a
  pseudo-random draw;
* the body of the `case <-timer.C:` branch of `dynamicWindowRateLimiter` and of
  `adaptiveRateLimiter`;
* the two control goroutines together with the admission loop, as a step
  function over interleaved events.

Go `int` is a 64-bit two's-complement integer: it is an `Int` here, and every
arithmetic result is reduced with `wrap64`.  Go `float64` values that are finite
are rationals: an operation is the exact rational operation followed by
`f64Round`, rounding to the nearest value with a 53-bit significand, ties to
even.  `time.Duration` is an `int64` number of nanoseconds.
-/

namespace RateLimitDemo

/-! ## Go `int` -/

/-- Reduction of an integer to the 64-bit two's-complement range
`[-2^63, 2^63)`; the result of every Go `int` operation. -/
def wrap64 (z : Int) : Int := (z + 2 ^ 63) % 2 ^ 64 - 2 ^ 63

/-- The values of the Go type `int`. -/
def InInt64 (z : Int) : Prop := -(2 ^ 63) ≤ z ∧ z < 2 ^ 63

instance (z : Int) : Decidable (InInt64 z) := by unfold InInt64; infer_instance

/-! ## `math/rand` -/

/-- `(*rand.Rand).Intn(n)`: it panics (`none`) when `n <= 0`; otherwise it
returns the generator's raw sample reduced modulo `n`, a value of `[0, n)`.
The raw sample is the argument `raw`, so that a statement can quantify over
every outcome: as `raw` ranges over the naturals, `raw % n` takes every value of
`[0, n)` and no other. -/
def Intn (raw : Nat) (n : Int) : Option Int :=
  if n ≤ 0 then none else some ((raw : Int) % n)

/-! ## `time` -/

/-- `time.Millisecond`, in nanoseconds. -/
def Millisecond : Int := 1000000

/-- `time.Second`, in nanoseconds. -/
def Second : Int := 1000 * Millisecond

/-! ## Go `float64` -/

/-- Rounding of a rational to the nearest integer, ties to the even one. -/
def roundHalfEven (s : ℚ) : Int :=
  let f := ⌊s⌋
  if s - f < 1 / 2 then f
  else if 1 / 2 < s - f then f + 1
  else if f % 2 = 0 then f else f + 1

/-- Rounding of a rational to `float64`: the nearest multiple of the unit in the
last place `2 ^ (e - 52)`, where `2 ^ e ≤ |x| < 2 ^ (e + 1)` (and `e` is at
least `-1022`, the subnormal range), ties to even.  Magnitudes from `2 ^ 1024`
on, which round to an infinity, are outside this development. -/
def f64Round (x : ℚ) : ℚ :=
  if x = 0 then 0
  else
    let e : Int := max (Int.log 2 |x|) (-1022)
    let ulp : ℚ := 2 ^ (e - 52)
    roundHalfEven (x / ulp) * ulp

/-- The conversion `float64(n)` of an `int`. -/
def float64OfInt (n : Int) : ℚ := f64Round n

/-- The `float64` sum `a + b`. -/
def f64Add (a b : ℚ) : ℚ := f64Round (a + b)

/-- The `float64` quotient `a / b`, for `b` other than zero. -/
def f64Div (a b : ℚ) : ℚ := f64Round (a / b)

/-- `math.Ceil(x)`: the least integer not below `x`, as a `float64`; it is
exact, the ceiling of a `float64` being a `float64`. -/
def mathCeil (x : ℚ) : ℚ := (⌈x⌉ : Int)

/-- The conversion `int(x)` of a `float64` within the range of `int`: the
fraction is discarded (truncation towards zero). -/
def intOfFloat64 (x : ℚ) : Int := if 0 ≤ x then ⌊x⌋ else ⌈x⌉

/-! ## `golang.org/x/time/rate` -/

/-- The configuration held by a `rate.Limiter`: its `limit` (events per second,
the type `rate.Limit` is a `float64`) and its `burst`. -/
structure Limiter where
  limit : ℚ
  burst : Int
deriving DecidableEq

/-- `rate.NewLimiter(r, b)`. -/
def NewLimiter (r : ℚ) (b : Int) : Limiter := { limit := r, burst := b }

/-- `(*Limiter).SetLimit(newLimit)`. -/
def Limiter.SetLimit (lim : Limiter) (newLimit : ℚ) : Limiter :=
  { lim with limit := newLimit }

/-- `(*Limiter).SetBurst(newBurst)`. -/
def Limiter.SetBurst (lim : Limiter) (newBurst : Int) : Limiter :=
  { lim with burst := newBurst }

/-- A call on the limiter made by a control goroutine.  Each call takes the
limiter's mutex for itself. -/
inductive Op where
  | SetLimit (newLimit : ℚ)
  | SetBurst (newBurst : Int)
deriving DecidableEq

/-- The effect of a call on the limiter. -/
def Limiter.run (lim : Limiter) : Op → Limiter
  | .SetLimit r => lim.SetLimit r
  | .SetBurst b => lim.SetBurst b

/-! ## Helpers of `main.go` -/

/-- `randInt(min, max)` (main.go 188-195); `raw` is the sample behind
`r.Intn`, `none` is a panic. -/
def randInt (min max : Int) (raw : Nat) : Option Int :=
  if min ≥ max ∨ min = 0 ∨ max = 0 then
    some max
  else
    (Intn raw (wrap64 (max - min))).map fun v => wrap64 (v + min)

/-- `measureResponseTime()` (main.go 172-179); `raw` is the sample behind
`r.Intn(3)`. -/
def measureResponseTime (raw : Nat) : Option Int :=
  (Intn raw 3).map fun k =>
    if k < 2 then Millisecond * 600 else Millisecond * 100

/-! ## The tick of `dynamicWindowRateLimiter` (main.go 100-116) -/

/-- The values `limit` (main.go 108) computed from the result `d` of
`randInt(10, 60)`. -/
def dynamicWindowRateLimiter.limit (d : Int) : ℚ :=
  mathCeil (f64Add (f64Div (float64OfInt d) 10) 100)

/-- The pair `(newRate, burst)` of main.go 109 and 112 for a tick whose random
sample is `raw`; `none` is a panic of `randInt`. -/
def dynamicWindowRateLimiter.adjustment (raw : Nat) : Option (ℚ × Int) :=
  (randInt 10 60 raw).map fun d =>
    let limit := dynamicWindowRateLimiter.limit d
    let newRate := limit
    let burst := intOfFloat64 newRate
    (newRate, burst)

/-- The limiter calls of one tick, in program order (main.go 115-116). -/
def dynamicWindowRateLimiter.tick (raw : Nat) : Option (List Op) :=
  (dynamicWindowRateLimiter.adjustment raw).map fun p =>
    [Op.SetLimit p.1, Op.SetBurst p.2]

/-! ## The tick of `adaptiveRateLimiter` (main.go 143-153) -/

/-- The rate chosen for a measured response time (main.go 147-153). -/
def adaptiveRateLimiter.rate (responseTime : Int) : ℚ :=
  if responseTime > 500 * Millisecond then 50 else 100

/-- The limiter calls of one tick (main.go 144-153) when the response time is
measured by `sampler`; `none` is a panic. -/
def adaptiveRateLimiter.tickWith (sampler : Nat → Option Int) (raw : Nat) :
    Option (List Op) :=
  (sampler raw).map fun responseTime =>
    [Op.SetLimit (adaptiveRateLimiter.rate responseTime)]

/-- The limiter calls of one tick (main.go 144-153), the response time being
measured by `measureResponseTime`; `none` is a panic. -/
def adaptiveRateLimiter.tick (raw : Nat) : Option (List Op) :=
  adaptiveRateLimiter.tickWith measureResponseTime raw

/-! ## The goroutines of a strategy, as interleaved events

Both strategies have the same shape: `time.NewTimer(3 * time.Second)`, a control
goroutine looping over `select { case <-timer.C: ...; default: }`, and the main
goroutine calling `limiter.Allow()`.  A `World` is the state they share, an
`Event` is one atomic step of one of them. -/

/-- The shared state of a running strategy. -/
structure World where
  /-- Nanoseconds since the timer was created. -/
  now : Int
  /-- The duration given to `time.NewTimer`. -/
  deadline : Int
  /-- The timer has not fired yet.  A `time.Timer` fires once; only `Reset`,
  which `main.go` never calls, arms it again. -/
  armed : Bool
  /-- A value is waiting in `timer.C`, a channel of capacity one. -/
  timerC : Bool
  /-- The limiter calls that the control goroutine has still to make for the
  tick it is handling; empty when it is at the `select`. -/
  pending : List Op
  /-- A panic has ended the program. -/
  crashed : Bool
  /-- How many times the `case <-timer.C:` branch has been entered. -/
  ticks : Nat
  /-- The limiter both goroutines share. -/
  limiter : Limiter
  /-- The configuration under which each `limiter.Allow()` ran, latest first. -/
  seen : List Limiter

/-- One atomic step of the runtime or of a goroutine. -/
inductive Event where
  /-- Time passes by `dt` nanoseconds. -/
  | elapse (dt : Nat)
  /-- The control goroutine moves: its next limiter call if a tick is in
  progress, otherwise one evaluation of the `select`; `raw` is the random sample
  the tick consumes. -/
  | control (raw : Nat)
  /-- The main goroutine calls `limiter.Allow()`. -/
  | allow

/-- The effect of an event; `body` gives the limiter calls of a tick. -/
def step (body : Nat → Option (List Op)) (w : World) : Event → World
  | .elapse dt =>
    let now := w.now + dt
    if w.armed ∧ w.deadline ≤ now then
      { w with now := now, armed := false, timerC := true }
    else
      { w with now := now }
  | .control raw =>
    if w.crashed then w
    else
      match w.pending with
      | op :: rest => { w with limiter := w.limiter.run op, pending := rest }
      | [] =>
        if w.timerC then
          match body raw with
          | some ops => { w with timerC := false, ticks := w.ticks + 1, pending := ops }
          | none => { w with timerC := false, ticks := w.ticks + 1, crashed := true }
        else w
  | .allow =>
    if w.crashed then w else { w with seen := w.limiter :: w.seen }

/-- The effect of a sequence of events. -/
def run (body : Nat → Option (List Op)) (w : World) (events : List Event) : World :=
  events.foldl (step body) w

/-- The state in which `dynamicWindowRateLimiter` starts its goroutines
(main.go 92, 95). -/
def dynamicWindowRateLimiter.start : World :=
  { now := 0, deadline := 3 * Second, armed := true, timerC := false, pending := [],
    crashed := false, ticks := 0, limiter := NewLimiter 10 100, seen := [] }

/-- The state in which `adaptiveRateLimiter` starts its goroutines
(main.go 136, 139). -/
def adaptiveRateLimiter.start : World :=
  { now := 0, deadline := 3 * Second, armed := true, timerC := false, pending := [],
    crashed := false, ticks := 0, limiter := NewLimiter 100 1, seen := [] }

/-- The run of a strategy up to the end of its tick: three seconds pass, the
control goroutine takes the timer branch of the `select` with the sample `raw`,
then makes its limiter call. -/
def oneTick (raw : Nat) : List Event :=
  [Event.elapse 3000000000, Event.control raw, Event.control raw]

/-- What the timer can still deliver, plus what it has delivered: one for an
armed timer, one for a value waiting in `timer.C`, one for each tick taken. -/
def World.budget (w : World) : Nat :=
  (if w.armed then 1 else 0) + (if w.timerC then 1 else 0) + w.ticks

/-- The configurations an `Allow` of `dynamicWindowRateLimiter` may run under:
the one the limiter was created with, or a rate `n` of a tick together with
either the burst 100 of creation or the burst `n` of that tick. -/
def Observable (c : Limiter) : Prop :=
  c = { limit := 10, burst := 100 } ∨
    ∃ n : Int, 101 ≤ n ∧ n ≤ 106 ∧ c.limit = n ∧ (c.burst = 100 ∨ c.burst = n)

/-- The states `dynamicWindowRateLimiter` goes through: before the tick, and
the three positions of the control goroutine within the tick. -/
def Staged (w : World) : Prop :=
  (w.limiter = { limit := 10, burst := 100 } ∧ w.pending = [] ∧
      (w.armed = true → w.timerC = false)) ∨
    (w.armed = false ∧ w.timerC = false ∧ ∃ n : Int, 101 ≤ n ∧ n ≤ 106 ∧
      ((w.limiter = { limit := 10, burst := 100 } ∧
          w.pending = [Op.SetLimit n, Op.SetBurst n]) ∨
        (w.limiter = { limit := n, burst := 100 } ∧ w.pending = [Op.SetBurst n]) ∨
        (w.limiter = { limit := n, burst := n } ∧ w.pending = [])))

/-- A run of `dynamicWindowRateLimiter` in which `limiter.Allow()` is called
between the two limiter calls of the tick. -/
def dynamicWindowRateLimiter.tornRun : List Event :=
  [Event.elapse 3000000000, Event.control 0, Event.control 0, Event.allow, Event.control 0]

/-- A run of `dynamicWindowRateLimiter` over six seconds in which the control
goroutine takes every step it can after each three seconds. -/
def dynamicWindowRateLimiter.sixSeconds : List Event :=
  [Event.elapse 3000000000, Event.control 0, Event.control 0, Event.control 0,
    Event.elapse 3000000000, Event.control 1, Event.control 1, Event.control 1]

/-! ## `randInt` and `measureResponseTime` -/

theorem wrap64_of_inInt64 {z : Int} (h : InInt64 z) : wrap64 z = z := by
  unfold InInt64 at h
  unfold wrap64
  omega

theorem adaptive_oneTick (body : Nat → Option (List Op)) (raw : Nat) (op : Op)
    (h : body raw = some [op]) :
    (run body adaptiveRateLimiter.start (oneTick raw)).limiter
      = adaptiveRateLimiter.start.limiter.run op := by
  simp [run, oneTick, step, adaptiveRateLimiter.start, h, Second, Millisecond]

theorem adaptive_tickWith_const (d : Int) (raw : Nat) :
    adaptiveRateLimiter.tickWith (fun _ => some d) raw
      = some [Op.SetLimit (if d > 500 * Millisecond then 50 else 100)] := rfl

theorem adaptive_tick_of_sample (raw : Nat) (d : Int) (h : measureResponseTime raw = some d) :
    adaptiveRateLimiter.tick raw
      = some [Op.SetLimit (if d > 500 * Millisecond then 50 else 100)] := by
  unfold adaptiveRateLimiter.tick adaptiveRateLimiter.tickWith
  rw [h]
  rfl

theorem measureResponseTime_some (raw : Nat) : ∃ d, measureResponseTime raw = some d := by
  unfold measureResponseTime Intn
  rw [if_neg (by decide)]
  exact ⟨_, rfl⟩

/-- C1: on an adaptive tick, whatever response time `d` the sampler measures,
the tick makes the one limiter call `SetLimit`, with 50 when `d > 500ms` and
with 100 otherwise, and the limiter of `adaptiveRateLimiter` then has that rate;
the same holds of the tick with the sampler `measureResponseTime` of the
program; a sampler returning 500ms gives rate 100, one returning 600ms gives 50
and one returning 100ms gives 100. -/
theorem adaptiveRateLimiter_tick_sets_rate :
    (∀ (d : Int) (raw : Nat) (lim : Limiter),
      adaptiveRateLimiter.tickWith (fun _ => some d) raw
        = some [Op.SetLimit (if d > 500 * Millisecond then 50 else 100)] ∧
      [Op.SetLimit (if d > 500 * Millisecond then 50 else 100)].foldl Limiter.run lim
        = { limit := if d > 500 * Millisecond then 50 else 100, burst := lim.burst } ∧
      (run (adaptiveRateLimiter.tickWith fun _ => some d) adaptiveRateLimiter.start
          (oneTick raw)).limiter
        = { limit := if d > 500 * Millisecond then 50 else 100, burst := 1 }) ∧
    (∀ raw : Nat, ∃ d : Int, measureResponseTime raw = some d ∧
      adaptiveRateLimiter.tick raw
        = some [Op.SetLimit (if d > 500 * Millisecond then 50 else 100)] ∧
      (run adaptiveRateLimiter.tick adaptiveRateLimiter.start (oneTick raw)).limiter
        = { limit := if d > 500 * Millisecond then 50 else 100, burst := 1 }) ∧
    (run (adaptiveRateLimiter.tickWith fun _ => some (500 * Millisecond))
        adaptiveRateLimiter.start (oneTick 0)).limiter.limit = 100 ∧
    (run (adaptiveRateLimiter.tickWith fun _ => some (600 * Millisecond))
        adaptiveRateLimiter.start (oneTick 0)).limiter.limit = 50 ∧
    (run (adaptiveRateLimiter.tickWith fun _ => some (100 * Millisecond))
        adaptiveRateLimiter.start (oneTick 0)).limiter.limit = 100 := by
  refine ⟨fun d raw lim => ⟨rfl, rfl, ?_⟩, fun raw => ?_, ?_, ?_, ?_⟩
  · rw [adaptive_oneTick _ raw _ (adaptive_tickWith_const d raw)]
    rfl
  · obtain ⟨d, hd⟩ := measureResponseTime_some raw
    refine ⟨d, hd, adaptive_tick_of_sample raw d hd, ?_⟩
    rw [adaptive_oneTick _ raw _ (adaptive_tick_of_sample raw d hd)]
    rfl
  · rw [adaptive_oneTick _ 0 _ (adaptive_tickWith_const _ 0)]
    simp [Limiter.run, Limiter.SetLimit, Millisecond]
  · rw [adaptive_oneTick _ 0 _ (adaptive_tickWith_const _ 0)]
    simp [Limiter.run, Limiter.SetLimit, Millisecond]
  · rw [adaptive_oneTick _ 0 _ (adaptive_tickWith_const _ 0)]
    simp [Limiter.run, Limiter.SetLimit, Millisecond]

/-- C2: when `min >= max`, or `min == 0`, or `max == 0`, `randInt(min, max)`
returns `max` unchanged, whatever the random sample is. -/
theorem randInt_guard (min max : Int) (raw : Nat)
    (h : min ≥ max ∨ min = 0 ∨ max = 0) : randInt min max raw = some max := by
  unfold randInt
  rw [if_pos h]

theorem randInt_guard_witness :
    randInt 60 10 7 = some 10 ∧ randInt 0 60 7 = some 60 ∧ randInt (-5) 0 7 = some 0 :=
  ⟨randInt_guard 60 10 7 (by decide), randInt_guard 0 60 7 (by decide),
    randInt_guard (-5) 0 7 (by decide)⟩

theorem randInt_of_pos (min max : Int) (raw : Nat) (hmax : InInt64 max)
    (hmin : 0 < min) (hlt : min < max) :
    randInt min max raw = some (min + (raw : Int) % (max - min)) := by
  have hm : 0 ≤ (raw : Int) % (max - min) := Int.emod_nonneg _ (by omega)
  have hm2 : (raw : Int) % (max - min) < max - min := Int.emod_lt_of_pos _ (by omega)
  unfold InInt64 at hmax
  have hw : wrap64 (max - min) = max - min := wrap64_of_inInt64 (by unfold InInt64; omega)
  have hw2 : wrap64 ((raw : Int) % (max - min) + min) = (raw : Int) % (max - min) + min :=
    wrap64_of_inInt64 (by unfold InInt64; omega)
  unfold randInt Intn
  rw [if_neg (by omega), hw, if_neg (by omega)]
  simp only [Option.map_some', hw2]
  congr 1
  omega

/-- C3: for Go ints with `0 < min < max`, `randInt(min, max)` returns
`min + k`, where `k` is the value of `Intn(max - min)`, and `min <= min + k <
max`; every `k` of `[0, max - min)` is the value of `Intn` for some sample; and
`randInt(10, 60)` returns an `r` with `10 <= r <= 59`. -/
theorem randInt_range (min max : Int) (hmax : InInt64 max)
    (hmin : 0 < min) (hlt : min < max) :
    (∀ raw : Nat, ∃ k r, Intn raw (max - min) = some k ∧ 0 ≤ k ∧ k < max - min ∧
      randInt min max raw = some r ∧ r = min + k ∧ min ≤ r ∧ r < max) ∧
    (∀ k : Int, 0 ≤ k → k < max - min → ∃ raw : Nat, Intn raw (max - min) = some k) ∧
    (∀ raw : Nat, ∃ r, randInt 10 60 raw = some r ∧ 10 ≤ r ∧ r ≤ 59) := by
  refine ⟨fun raw => ?_, fun k hk0 hk => ?_, fun raw => ?_⟩
  · have hm : 0 ≤ (raw : Int) % (max - min) := Int.emod_nonneg _ (by omega)
    have hm2 : (raw : Int) % (max - min) < max - min := Int.emod_lt_of_pos _ (by omega)
    refine ⟨(raw : Int) % (max - min), min + (raw : Int) % (max - min), ?_, hm, hm2,
      randInt_of_pos min max raw hmax hmin hlt, rfl, by omega, by omega⟩
    unfold Intn
    rw [if_neg (by omega)]
  · refine ⟨k.toNat, ?_⟩
    unfold Intn
    rw [if_neg (by omega), Int.toNat_of_nonneg hk0, Int.emod_eq_of_lt hk0 hk]
  · refine ⟨10 + (raw : Int) % (60 - 10), randInt_of_pos 10 60 raw (by decide) (by decide)
      (by decide), ?_, ?_⟩ <;> omega

theorem randInt_range_witness :
    (∀ raw : Nat, ∃ k r, Intn raw (60 - 10) = some k ∧ 0 ≤ k ∧ k < 60 - 10 ∧
      randInt 10 60 raw = some r ∧ r = 10 + k ∧ 10 ≤ r ∧ r < 60) ∧
    (∀ k : Int, 0 ≤ k → k < 60 - 10 → ∃ raw : Nat, Intn raw (60 - 10) = some k) ∧
    (∀ raw : Nat, ∃ r, randInt 10 60 raw = some r ∧ 10 ≤ r ∧ r ≤ 59) :=
  randInt_range 10 60 (by decide) (by decide) (by decide)

/-- C9, as the code has it: at `min = -1`, `max = 2^63 - 1`, both Go ints,
`randInt` passes its guard, `max - min` wraps to `-2^63`, and `Intn` panics,
whatever the sample. -/
theorem randInt_panics_on_overflow :
    InInt64 (-1) ∧ InInt64 (2 ^ 63 - 1) ∧
    ¬ ((-1 : Int) ≥ 2 ^ 63 - 1 ∨ (-1 : Int) = 0 ∨ (2 ^ 63 - 1 : Int) = 0) ∧
    wrap64 ((2 ^ 63 - 1) - (-1)) = -(2 ^ 63) ∧
    ¬ (0 < wrap64 ((2 ^ 63 - 1) - (-1))) ∧
    ∀ raw : Nat, randInt (-1) (2 ^ 63 - 1) raw = none := by
  refine ⟨by decide, by decide, by decide, by decide, by decide, fun raw => ?_⟩
  have hw : wrap64 ((2 ^ 63 - 1) - (-1)) = -(2 ^ 63) := by decide
  unfold randInt Intn
  rw [if_neg (by decide), hw, if_pos (by decide)]
  rfl

/-- C9, amended: for Go ints `min` and `max` whose difference `max - min` does
not wrap (it is below `2^63`), whenever `randInt` passes its guard the argument
`max - min` of `Intn` is strictly positive, `Intn` does not panic, and `randInt`
returns an `r` with `min <= r < max`. -/
theorem randInt_no_panic_without_wrap (min max : Int) (raw : Nat)
    (hmin : InInt64 min) (hmax : InInt64 max)
    (hguard : ¬ (min ≥ max ∨ min = 0 ∨ max = 0)) (hdiff : max - min < 2 ^ 63) :
    0 < wrap64 (max - min) ∧ wrap64 (max - min) = max - min ∧
      Intn raw (wrap64 (max - min)) = some ((raw : Int) % (max - min)) ∧
      ∃ r, randInt min max raw = some r ∧ min ≤ r ∧ r < max := by
  unfold InInt64 at hmin hmax
  have hlt : min < max := by
    by_contra hc
    exact hguard (Or.inl (by omega))
  have hw : wrap64 (max - min) = max - min := wrap64_of_inInt64 (by unfold InInt64; omega)
  have hm : 0 ≤ (raw : Int) % (max - min) := Int.emod_nonneg _ (by omega)
  have hm2 : (raw : Int) % (max - min) < max - min := Int.emod_lt_of_pos _ (by omega)
  have hw2 : wrap64 ((raw : Int) % (max - min) + min) = (raw : Int) % (max - min) + min :=
    wrap64_of_inInt64 (by unfold InInt64; omega)
  have hI : Intn raw (wrap64 (max - min)) = some ((raw : Int) % (max - min)) := by
    unfold Intn
    rw [hw, if_neg (by omega)]
  refine ⟨by rw [hw]; omega, hw, hI, (raw : Int) % (max - min) + min, ?_, by omega, by omega⟩
  unfold randInt
  rw [if_neg hguard, hI]
  simp only [Option.map_some', hw2]

theorem randInt_no_panic_without_wrap_witness :
    (0 < wrap64 (60 - 10) ∧ wrap64 (60 - 10) = 60 - 10 ∧
      Intn 7 (wrap64 (60 - 10)) = some (((7 : Nat) : Int) % (60 - 10)) ∧
      ∃ r, randInt 10 60 7 = some r ∧ 10 ≤ r ∧ r < 60) ∧
    (0 < wrap64 (7 - (-5)) ∧ wrap64 (7 - (-5)) = 7 - (-5) ∧
      Intn 3 (wrap64 (7 - (-5))) = some (((3 : Nat) : Int) % (7 - (-5))) ∧
      ∃ r, randInt (-5) 7 3 = some r ∧ -5 ≤ r ∧ r < 7) :=
  ⟨randInt_no_panic_without_wrap 10 60 7 (by decide) (by decide) (by decide) (by decide),
    randInt_no_panic_without_wrap (-5) 7 3 (by decide) (by decide) (by decide) (by decide)⟩


/-! ## `float64` rounding -/

theorem roundHalfEven_sub_le (s : ℚ) : |((roundHalfEven s : Int) : ℚ) - s| ≤ 1 / 2 := by
  have h1 : ((⌊s⌋ : Int) : ℚ) ≤ s := Int.floor_le s
  have h2 : s < ((⌊s⌋ : Int) : ℚ) + 1 := Int.lt_floor_add_one s
  unfold roundHalfEven
  simp only
  rw [abs_le]
  split_ifs with ha hb hc
  · constructor <;> linarith
  · push_cast
    constructor <;> linarith
  · constructor <;> linarith
  · push_cast
    constructor <;> linarith

theorem roundHalfEven_intCast (n : Int) : roundHalfEven (n : ℚ) = n := by
  unfold roundHalfEven
  simp

theorem f64Round_error {x : ℚ} {E : Int} (hx : 0 < x) (hE : -1022 ≤ E)
    (hlt : x < 2 ^ (E + 1)) : |f64Round x - x| ≤ 2 ^ (E - 53) := by
  have hlog : Int.log 2 |x| < E + 1 := by
    rw [abs_of_pos hx]
    exact (Int.lt_zpow_iff_log_lt (by norm_num) hx).1 (by exact_mod_cast hlt)
  have he : max (Int.log 2 |x|) (-1022) ≤ E := max_le (by omega) hE
  have hulp : (0 : ℚ) < 2 ^ (max (Int.log 2 |x|) (-1022) - 52) := zpow_pos (by norm_num) _
  unfold f64Round
  rw [if_neg hx.ne']
  simp only
  set u : ℚ := 2 ^ (max (Int.log 2 |x|) (-1022) - 52) with hu
  have hr := roundHalfEven_sub_le (x / u)
  have hfac : ((roundHalfEven (x / u) : Int) : ℚ) * u - x
      = (((roundHalfEven (x / u) : Int) : ℚ) - x / u) * u := by
    field_simp
  rw [hfac, abs_mul, abs_of_pos hulp]
  have hu2 : u ≤ 2 ^ (E - 52) := zpow_le_zpow_right₀ (by norm_num) (by omega)
  have h53 : (2 : ℚ) ^ (E - 53) = 1 / 2 * 2 ^ (E - 52) := by
    rw [show E - 52 = (E - 53) + 1 by ring, zpow_add_one₀ (by norm_num)]
    ring
  rw [h53]
  exact mul_le_mul hr hu2 hulp.le (by norm_num)

theorem f64Round_intCast (n : Int) (h0 : 0 < n) (h : n < 2 ^ 53) : f64Round (n : ℚ) = n := by
  have hx : (0 : ℚ) < n := by exact_mod_cast h0
  have hlog0 : 0 ≤ Int.log 2 |(n : ℚ)| := by
    rw [abs_of_pos hx]
    have := (Int.zpow_le_iff_le_log (R := ℚ) (b := 2) (by norm_num) (x := 0) hx).1
      (by simpa using (by exact_mod_cast h0 : (1 : ℚ) ≤ n))
    exact this
  have hlog1 : Int.log 2 |(n : ℚ)| < 53 := by
    rw [abs_of_pos hx]
    exact (Int.lt_zpow_iff_log_lt (by norm_num) hx).1 (by exact_mod_cast h)
  unfold f64Round
  rw [if_neg hx.ne']
  simp only
  rw [max_eq_left (by omega)]
  obtain ⟨j, hj⟩ : ∃ j : Nat, (j : Int) = 52 - Int.log 2 |(n : ℚ)| :=
    ⟨(52 - Int.log 2 |(n : ℚ)|).toNat, Int.toNat_of_nonneg (by omega)⟩
  have hexp : Int.log 2 |(n : ℚ)| - 52 = -(j : Int) := by omega
  rw [hexp, zpow_neg, zpow_natCast]
  have hdiv : (n : ℚ) / ((2 : ℚ) ^ j)⁻¹ = ((n * 2 ^ j : Int) : ℚ) := by
    push_cast
    field_simp
  rw [hdiv, roundHalfEven_intCast]
  push_cast
  field_simp


/-! ## The scheduled tick -/

theorem limit_eq_ceil (d : Int) (h1 : 10 ≤ d) (h2 : d < 60) :
    dynamicWindowRateLimiter.limit d = ((⌈(d : ℚ) / 10 + 100⌉ : Int) : ℚ) := by
  unfold dynamicWindowRateLimiter.limit mathCeil f64Add f64Div float64OfInt
  rw [f64Round_intCast d (by omega) (by omega)]
  obtain ⟨q, r, hd, hr0, hr9, hq1, hq5⟩ :
      ∃ q r : Int, d = 10 * q + r ∧ 0 ≤ r ∧ r ≤ 9 ∧ 1 ≤ q ∧ q ≤ 5 :=
    ⟨d / 10, d % 10, by omega, by omega, by omega, by omega, by omega⟩
  have hdq : (d : ℚ) = 10 * q + r := by exact_mod_cast hd
  have hq1' : (1 : ℚ) ≤ q := by exact_mod_cast hq1
  have hq5' : (q : ℚ) ≤ 5 := by exact_mod_cast hq5
  have hr9' : (r : ℚ) ≤ 9 := by exact_mod_cast hr9
  rcases eq_or_lt_of_le hr0 with hr | hr
  · -- `d` is a multiple of ten: every operation is exact
    have hx : (d : ℚ) / 10 = (q : ℚ) := by
      rw [hdq, ← hr]
      push_cast
      ring
    rw [hx, f64Round_intCast q (by omega) (by omega)]
    have hs : (q : ℚ) + 100 = ((q + 100 : Int) : ℚ) := by push_cast; ring
    rw [hs, f64Round_intCast (q + 100) (by omega) (by omega)]
  · -- otherwise the quotient stays at least a tenth away from the integers
    have hr1 : (1 : ℚ) ≤ r := by exact_mod_cast (by omega : 1 ≤ r)
    have hxlo : (q : ℚ) + 1 / 10 ≤ (d : ℚ) / 10 := by rw [hdq]; linarith
    have hxhi : (d : ℚ) / 10 ≤ (q : ℚ) + 9 / 10 := by rw [hdq]; linarith
    have e1 := f64Round_error (x := (d : ℚ) / 10) (E := 2) (by linarith) (by norm_num)
      (by norm_num; linarith)
    have hb1 : (2 : ℚ) ^ ((2 : Int) - 53) ≤ 1 / 100 := by norm_num
    rw [abs_le] at e1
    have e2 := f64Round_error (x := f64Round ((d : ℚ) / 10) + 100) (E := 6) (by linarith)
      (by norm_num) (by norm_num; linarith)
    have hb2 : (2 : ℚ) ^ ((6 : Int) - 53) ≤ 1 / 100 := by norm_num
    rw [abs_le] at e2
    have hl : ⌈f64Round (f64Round ((d : ℚ) / 10) + 100)⌉ = q + 101 := by
      rw [Int.ceil_eq_iff]
      push_cast
      constructor <;> linarith
    have hrhs : ⌈(d : ℚ) / 10 + 100⌉ = q + 101 := by
      rw [Int.ceil_eq_iff]
      push_cast
      constructor <;> linarith
    rw [hl, hrhs]

theorem ceil_tenth_bounds (d : Int) (h1 : 10 ≤ d) (h2 : d < 60) :
    101 ≤ ⌈(d : ℚ) / 10 + 100⌉ ∧ ⌈(d : ℚ) / 10 + 100⌉ ≤ 106 := by
  have h1' : (10 : ℚ) ≤ d := by exact_mod_cast h1
  have h2' : (d : ℚ) < 60 := by exact_mod_cast h2
  constructor
  · have := Int.le_ceil ((d : ℚ) / 10 + 100)
    have h : ((100 : Int) : ℚ) < ((⌈(d : ℚ) / 10 + 100⌉ : Int) : ℚ) := by
      push_cast
      linarith
    have := Int.cast_lt.1 h
    omega
  · rw [Int.ceil_le]
    push_cast
    linarith

theorem intOfFloat64_intCast (n : Int) : intOfFloat64 (n : ℚ) = n := by
  unfold intOfFloat64
  split_ifs <;> simp

theorem randInt_10_60 (raw : Nat) : randInt 10 60 raw = some (10 + (raw : Int) % 50) :=
  randInt_of_pos 10 60 raw (by decide) (by decide) (by decide)

theorem adjustment_eq (raw : Nat) :
    dynamicWindowRateLimiter.adjustment raw
      = some (((⌈((10 + (raw : Int) % 50 : Int) : ℚ) / 10 + 100⌉ : Int) : ℚ),
          ⌈((10 + (raw : Int) % 50 : Int) : ℚ) / 10 + 100⌉) := by
  unfold dynamicWindowRateLimiter.adjustment
  rw [randInt_10_60]
  simp only [Option.map_some']
  rw [limit_eq_ceil _ (by omega) (by omega), intOfFloat64_intCast]


theorem tick_eq (raw : Nat) :
    ∃ n : Int, 101 ≤ n ∧ n ≤ 106 ∧
      dynamicWindowRateLimiter.adjustment raw = some ((n : ℚ), n) ∧
      dynamicWindowRateLimiter.tick raw = some [Op.SetLimit n, Op.SetBurst n] := by
  have hb := ceil_tenth_bounds (10 + (raw : Int) % 50) (by omega) (by omega)
  refine ⟨_, hb.1, hb.2, adjustment_eq raw, ?_⟩
  unfold dynamicWindowRateLimiter.tick
  rw [adjustment_eq]
  rfl

theorem adjustment_zero : dynamicWindowRateLimiter.adjustment 0 = some (101, 101) := by
  rw [adjustment_eq]
  norm_num

theorem tick_zero :
    dynamicWindowRateLimiter.tick 0 = some [Op.SetLimit 101, Op.SetBurst 101] := by
  unfold dynamicWindowRateLimiter.tick
  rw [adjustment_zero]
  rfl

/-- C4: on a scheduled tick, whatever the random sample, the burst passed to
`SetBurst` is the ceiling of the rate passed to `SetLimit` on that tick. -/
theorem dynamicWindowRateLimiter_burst_eq_ceil_rate (raw : Nat) :
    ∃ (newRate : ℚ) (burst : Int),
      dynamicWindowRateLimiter.adjustment raw = some (newRate, burst) ∧
      dynamicWindowRateLimiter.tick raw = some [Op.SetLimit newRate, Op.SetBurst burst] ∧
      burst = ⌈newRate⌉ ∧ (burst : ℚ) = mathCeil newRate := by
  obtain ⟨n, -, -, ha, ht⟩ := tick_eq raw
  refine ⟨n, n, ha, ht, ?_, ?_⟩
  · simp
  · simp [mathCeil]

/-- C5, as the code has it: the tick at sample 0 passes the rate 101 to the
limiter, which is not a value of `[10, 60)`. -/
theorem dynamicWindowRateLimiter_rate_not_in_draw_range :
    dynamicWindowRateLimiter.tick 0 = some [Op.SetLimit 101, Op.SetBurst 101] ∧
    ¬ ((10 : ℚ) ≤ 101 ∧ (101 : ℚ) < 60) ∧
    ¬ (∀ (raw : Nat) (newRate : ℚ) (burst : Int),
        dynamicWindowRateLimiter.adjustment raw = some (newRate, burst) →
          10 ≤ newRate ∧ newRate < 60) := by
  refine ⟨tick_zero, by norm_num, fun h => ?_⟩
  have := (h 0 101 101 adjustment_zero).2
  norm_num at this

/-- C5, amended: on every scheduled tick the value `d` drawn by `randInt(10,
60)` lies in `[10, 60)`, and the rate passed to the limiter is the ceiling of
`d / 10 + 100`, a value from 101 to 106. -/
theorem dynamicWindowRateLimiter_rate_from_draw (raw : Nat) :
    ∃ (d : Int) (newRate : ℚ) (burst : Int),
      randInt 10 60 raw = some d ∧ 10 ≤ d ∧ d < 60 ∧
      dynamicWindowRateLimiter.adjustment raw = some (newRate, burst) ∧
      newRate = ((⌈(d : ℚ) / 10 + 100⌉ : Int) : ℚ) ∧ 101 ≤ newRate ∧ newRate ≤ 106 := by
  have hb := ceil_tenth_bounds (10 + (raw : Int) % 50) (by omega) (by omega)
  refine ⟨10 + (raw : Int) % 50, _, _, randInt_10_60 raw, by omega, by omega,
    adjustment_eq raw, rfl, ?_, ?_⟩
  · exact_mod_cast hb.1
  · exact_mod_cast hb.2

/-- C10: for every value `d` that `randInt(10, 60)` returns, the limit of the
tick is a whole number `n` with `101 <= n <= 106`, the burst `int(limit)` is the
same `n`, and the tick leaves the limiter with rate `n` and burst `n`, both
above the rate 10 and the burst 100 it was created with. -/
theorem dynamicWindowRateLimiter_limit_whole (raw : Nat) :
    ∃ d n : Int, randInt 10 60 raw = some d ∧
      dynamicWindowRateLimiter.limit d = (n : ℚ) ∧ 101 ≤ n ∧ n ≤ 106 ∧
      intOfFloat64 (dynamicWindowRateLimiter.limit d) = n ∧
      dynamicWindowRateLimiter.tick raw = some [Op.SetLimit n, Op.SetBurst n] ∧
      [Op.SetLimit n, Op.SetBurst n].foldl Limiter.run dynamicWindowRateLimiter.start.limiter
        = { limit := n, burst := n } ∧
      dynamicWindowRateLimiter.start.limiter = { limit := 10, burst := 100 } ∧
      dynamicWindowRateLimiter.start.limiter.limit < n ∧
      dynamicWindowRateLimiter.start.limiter.burst < n := by
  have hb := ceil_tenth_bounds (10 + (raw : Int) % 50) (by omega) (by omega)
  have hl := limit_eq_ceil (10 + (raw : Int) % 50) (by omega) (by omega)
  refine ⟨10 + (raw : Int) % 50, ⌈((10 + (raw : Int) % 50 : Int) : ℚ) / 10 + 100⌉,
    randInt_10_60 raw, hl, hb.1, hb.2, ?_, ?_, rfl, rfl, ?_, ?_⟩
  · rw [hl, intOfFloat64_intCast]
  · unfold dynamicWindowRateLimiter.tick
    rw [adjustment_eq]
    rfl
  · have : ((10 : Int) : ℚ) < ((⌈((10 + (raw : Int) % 50 : Int) : ℚ) / 10 + 100⌉ : Int) : ℚ) :=
      Int.cast_lt.2 (by omega)
    simpa [dynamicWindowRateLimiter.start, NewLimiter] using this
  · show (100 : Int) < _
    omega

/-- C8: `measureResponseTime` depends on its draw `k = Intn(3)` alone, `k` is
0, 1 or 2, the result is 600ms exactly when `k < 2` and 100ms exactly when
`k = 2`, never another duration, and the adaptive tick then sets the rate to 50
for `k < 2` and to 100 for `k = 2`. -/
theorem measureResponseTime_two_valued (raw : Nat) :
    ∃ k d : Int, Intn raw 3 = some k ∧ (k = 0 ∨ k = 1 ∨ k = 2) ∧
      measureResponseTime raw = some d ∧
      (d = 600 * Millisecond ↔ k < 2) ∧ (d = 100 * Millisecond ↔ k = 2) ∧
      (d = 600 * Millisecond ∨ d = 100 * Millisecond) ∧
      adaptiveRateLimiter.tick raw = some [Op.SetLimit (if k < 2 then 50 else 100)] := by
  have hk0 : 0 ≤ (raw : Int) % 3 := Int.emod_nonneg _ (by decide)
  have hk3 : (raw : Int) % 3 < 3 := Int.emod_lt_of_pos _ (by decide)
  have hI : Intn raw 3 = some ((raw : Int) % 3) := by
    unfold Intn
    rw [if_neg (by decide)]
  refine ⟨(raw : Int) % 3, if (raw : Int) % 3 < 2 then Millisecond * 600 else Millisecond * 100,
    hI, by omega, ?_, ?_, ?_, ?_, ?_⟩
  · unfold measureResponseTime
    rw [hI]
    rfl
  · split_ifs with h <;> simp [Millisecond, h]
  · split_ifs with h
    · simp [Millisecond]
      omega
    · simp [Millisecond]
      omega
  · split_ifs with h <;> simp [Millisecond]
  · unfold adaptiveRateLimiter.tick adaptiveRateLimiter.tickWith measureResponseTime
    rw [hI]
    simp only [Option.map_some']
    split_ifs with h <;> simp [adaptiveRateLimiter.rate, Millisecond]


/-! ## The goroutines -/

theorem budget_step (body : Nat → Option (List Op)) (w : World) (e : Event) :
    (step body w e).budget ≤ w.budget := by
  cases e with
  | elapse dt =>
    by_cases h : w.armed ∧ w.deadline ≤ w.now + dt
    · have ha := h.1
      simp only [step, if_pos h, World.budget]
      simp [ha]
    · simp only [step, if_neg h, World.budget]
      exact le_rfl
  | control raw =>
    by_cases hc : w.crashed
    · simp only [step, if_pos hc]
      exact le_rfl
    · cases hp : w.pending with
      | cons op rest =>
        simp only [step, if_neg hc, hp, World.budget]
        exact le_rfl
      | nil =>
        by_cases ht : w.timerC
        · cases hb : body raw <;>
            simp only [step, if_neg hc, hp, if_pos ht, hb, World.budget, ht] <;>
            simp <;> omega
        · simp only [step, if_neg hc, hp, if_neg ht]
          exact le_rfl
  | allow =>
    by_cases hc : w.crashed
    · simp only [step, if_pos hc]
      exact le_rfl
    · simp only [step, if_neg hc, World.budget]
      exact le_rfl

theorem budget_run (body : Nat → Option (List Op)) (events : List Event) (w : World) :
    (run body w events).budget ≤ w.budget := by
  induction events generalizing w with
  | nil => exact le_rfl
  | cons e es ih => exact (ih (step body w e)).trans (budget_step body w e)

theorem sixSeconds_eval :
    (run dynamicWindowRateLimiter.tick dynamicWindowRateLimiter.start
        dynamicWindowRateLimiter.sixSeconds).ticks = 1 ∧
      (run dynamicWindowRateLimiter.tick dynamicWindowRateLimiter.start
        dynamicWindowRateLimiter.sixSeconds).limiter = { limit := 101, burst := 101 } := by
  simp [run, dynamicWindowRateLimiter.sixSeconds, step, dynamicWindowRateLimiter.start, tick_zero,
    Second, Millisecond, NewLimiter, Limiter.run, Limiter.SetLimit, Limiter.SetBurst]

/-- C7: in both strategies the timer branch of the select is entered at most
once in any run, however much time passes: a second tick is never delivered.  In
the runs that let six seconds pass, with the control goroutine taking every step
it can, the branch has been entered once. -/
theorem timer_delivers_one_tick :
    (∀ events : List Event,
      (run dynamicWindowRateLimiter.tick dynamicWindowRateLimiter.start events).ticks ≤ 1) ∧
    (∀ events : List Event,
      (run adaptiveRateLimiter.tick adaptiveRateLimiter.start events).ticks ≤ 1) ∧
    (run dynamicWindowRateLimiter.tick dynamicWindowRateLimiter.start
      dynamicWindowRateLimiter.sixSeconds).ticks = 1 ∧
    (run adaptiveRateLimiter.tick adaptiveRateLimiter.start
      [Event.elapse 3000000000, Event.control 0, Event.control 0,
        Event.elapse 3000000000, Event.control 1, Event.control 1]).ticks = 1 := by
  refine ⟨fun events => ?_, fun events => ?_, sixSeconds_eval.1, ?_⟩
  · have h := budget_run dynamicWindowRateLimiter.tick events dynamicWindowRateLimiter.start
    have h0 : dynamicWindowRateLimiter.start.budget = 1 := rfl
    rw [h0] at h
    unfold World.budget at h
    omega
  · have h := budget_run adaptiveRateLimiter.tick events adaptiveRateLimiter.start
    have h0 : adaptiveRateLimiter.start.budget = 1 := rfl
    rw [h0] at h
    unfold World.budget at h
    omega
  · decide

theorem observable_of_staged {w : World} (h : Staged w) : Observable w.limiter := by
  rcases h with ⟨hl, -, -⟩ | ⟨-, -, n, h1, h2, ⟨hl, -⟩ | ⟨hl, -⟩ | ⟨hl, -⟩⟩
  · exact Or.inl hl
  · exact Or.inl hl
  · exact Or.inr ⟨n, h1, h2, by rw [hl], Or.inl (by rw [hl])⟩
  · exact Or.inr ⟨n, h1, h2, by rw [hl], Or.inr (by rw [hl])⟩

theorem staged_step (w : World) (e : Event) (h : Staged w)
    (hs : ∀ c ∈ w.seen, Observable c) :
    Staged (step dynamicWindowRateLimiter.tick w e) ∧
      ∀ c ∈ (step dynamicWindowRateLimiter.tick w e).seen, Observable c := by
  cases e with
  | elapse dt =>
    by_cases hf : w.armed ∧ w.deadline ≤ w.now + dt
    · simp only [step, if_pos hf]
      refine ⟨?_, hs⟩
      rcases h with ⟨hl, hp, -⟩ | ⟨ha, -, -⟩
      · exact Or.inl ⟨hl, hp, by simp⟩
      · rw [ha] at hf
        simp at hf
    · simp only [step, if_neg hf]
      exact ⟨h, hs⟩
  | control raw =>
    by_cases hc : w.crashed
    · simp only [step, if_pos hc]
      exact ⟨h, hs⟩
    · cases hp : w.pending with
      | cons op rest =>
        simp only [step, if_neg hc, hp]
        refine ⟨?_, hs⟩
        rcases h with ⟨-, hp0, -⟩ | ⟨ha, ht, n, h1, h2, ⟨hl, hq⟩ | ⟨hl, hq⟩ | ⟨-, hq⟩⟩
        · rw [hp0] at hp
          cases hp
        · rw [hq] at hp
          cases hp
          exact Or.inr ⟨ha, ht, n, h1, h2, Or.inr (Or.inl ⟨by rw [hl]; rfl, rfl⟩)⟩
        · rw [hq] at hp
          cases hp
          exact Or.inr ⟨ha, ht, n, h1, h2, Or.inr (Or.inr ⟨by rw [hl]; rfl, rfl⟩)⟩
        · rw [hq] at hp
          cases hp
      | nil =>
        by_cases ht : w.timerC
        · obtain ⟨n, h1, h2, -, hk⟩ := tick_eq raw
          simp only [step, if_neg hc, hp, if_pos ht, hk]
          refine ⟨?_, hs⟩
          rcases h with ⟨hl, -, hat⟩ | ⟨-, ht0, -⟩
          · have ha : w.armed = false := by
              cases hw : w.armed
              · rfl
              · rw [hat hw] at ht
                cases ht
            exact Or.inr ⟨ha, rfl, n, h1, h2, Or.inl ⟨hl, rfl⟩⟩
          · rw [ht0] at ht
            cases ht
        · simp only [step, if_neg hc, hp, if_neg ht]
          exact ⟨h, hs⟩
  | allow =>
    by_cases hc : w.crashed
    · simp only [step, if_pos hc]
      exact ⟨h, hs⟩
    · simp only [step, if_neg hc]
      refine ⟨h, fun c hcm => ?_⟩
      rcases List.mem_cons.1 hcm with rfl | hcm
      · exact observable_of_staged h
      · exact hs c hcm

theorem staged_run (events : List Event) (w : World) (h : Staged w)
    (hs : ∀ c ∈ w.seen, Observable c) :
    ∀ c ∈ (run dynamicWindowRateLimiter.tick w events).seen, Observable c := by
  induction events generalizing w with
  | nil => exact hs
  | cons e es ih =>
    obtain ⟨h1, h2⟩ := staged_step w e h hs
    exact ih (step dynamicWindowRateLimiter.tick w e) h1 h2

theorem tornRun_eval :
    (run dynamicWindowRateLimiter.tick dynamicWindowRateLimiter.start
        dynamicWindowRateLimiter.tornRun).seen = [{ limit := 101, burst := 100 }] ∧
      (run dynamicWindowRateLimiter.tick dynamicWindowRateLimiter.start
        dynamicWindowRateLimiter.tornRun).limiter = { limit := 101, burst := 101 } := by
  simp [run, dynamicWindowRateLimiter.tornRun, step, dynamicWindowRateLimiter.start, tick_zero,
    Second, Millisecond, NewLimiter, Limiter.run, Limiter.SetLimit, Limiter.SetBurst]

/-- C6, as the code has it: in the run where `Allow` is called between
`SetLimit` and `SetBurst`, it runs with the tick's rate 101 and the burst 100 of
creation, while the tick ends with rate 101 and burst 101. -/
theorem dynamicWindowRateLimiter_allow_sees_torn_update :
    dynamicWindowRateLimiter.start.limiter = { limit := 10, burst := 100 } ∧
    (run dynamicWindowRateLimiter.tick dynamicWindowRateLimiter.start
        dynamicWindowRateLimiter.tornRun).seen = [{ limit := 101, burst := 100 }] ∧
    (run dynamicWindowRateLimiter.tick dynamicWindowRateLimiter.start
        dynamicWindowRateLimiter.tornRun).limiter = { limit := 101, burst := 101 } :=
  ⟨rfl, tornRun_eval.1, tornRun_eval.2⟩

/-- C6, amended: the two limiter calls of a tick are separate steps.  In every
run each `Allow` runs under the configuration of creation, or under a tick's
rate with either the old burst or that tick's burst; so it never runs with the
old rate 10 and a new burst, while some run has an `Allow` under the new rate
and the old burst. -/
theorem dynamicWindowRateLimiter_allow_observations :
    (∀ (events : List Event),
      ∀ c ∈ (run dynamicWindowRateLimiter.tick dynamicWindowRateLimiter.start events).seen,
        Observable c ∧ (c.limit = 10 → c.burst = 100)) ∧
    (∃ events : List Event,
      ({ limit := 101, burst := 100 } : Limiter) ∈
        (run dynamicWindowRateLimiter.tick dynamicWindowRateLimiter.start events).seen) := by
  constructor
  · intro events c hc
    have hst : Staged dynamicWindowRateLimiter.start := Or.inl ⟨rfl, rfl, fun _ => rfl⟩
    have ho := staged_run events dynamicWindowRateLimiter.start hst
      (by intro c hc; cases hc) c hc
    refine ⟨ho, fun hl => ?_⟩
    rcases ho with rfl | ⟨n, h1, -, hn, -⟩
    · rfl
    · rw [hl] at hn
      have : (10 : Int) = n := by exact_mod_cast hn
      omega
  · exact ⟨dynamicWindowRateLimiter.tornRun, by rw [tornRun_eval.1]; exact List.mem_singleton.2 rfl⟩

end RateLimitDemo
